import Mathlib

/-!
# Verification of the test-case generator repository

Shallow embedding of the two Python source files:

* `generate_pdf.py` — the legacy free-text test-case parser
  `parse_legacy_testcases_blob` (regexes `TC_HEADER_RE`, `STEP_RE`,
  `EXPECT_RE`), and the retry/validation loop of `call_model`;
* `app.py` — the defensive JSON extraction `_json_from_text`.

Python strings are modelled as Lean `String`s, manipulated through their
character lists.  Python's `json.loads` is modelled by an executable
recursive-descent parser returning `Option Json`; a `none` result stands
for a raised `JSONDecodeError`.  Functions that can let an exception
escape to their caller return `Except String _`, with `.error` standing
for the uncaught exception.
-/

namespace Gen

/-! ## Python string primitives

`pyIsSpace` is the character set recognised by Python's `str.strip` /
`str.isspace` and by `\s` in a `str` regex: the ASCII whitespace and
separator controls plus the Unicode space separators. -/

def pyIsSpace (c : Char) : Bool :=
  let n := c.toNat
  n = 0x20 || n = 0x9 || n = 0xa || n = 0xb || n = 0xc || n = 0xd ||
  (0x1c ≤ n && n ≤ 0x1f) || n = 0x85 || n = 0xa0 || n = 0x1680 ||
  (0x2000 ≤ n && n ≤ 0x200a) || n = 0x2028 || n = 0x2029 ||
  n = 0x202f || n = 0x205f || n = 0x3000

/-- Python `str.rstrip()` on a character list. -/
def pyRstripChars (cs : List Char) : List Char :=
  (cs.reverse.dropWhile pyIsSpace).reverse

/-- Python `str.rstrip()`. -/
def pyRstrip (s : String) : String :=
  String.mk (pyRstripChars s.data)

/-- Python `str.strip()`. -/
def pyStrip (s : String) : String :=
  String.mk (pyRstripChars (s.data.dropWhile pyIsSpace))

/-- The line boundaries recognised by Python `str.splitlines()`:
`\n`, `\r`, `\r\n`, `\v`, `\f`, FS/GS/RS (0x1c–0x1e), NEL (0x85),
LINE SEPARATOR and PARAGRAPH SEPARATOR. -/
def pyIsLineBreak (c : Char) : Bool :=
  let n := c.toNat
  n = 0xa || n = 0xd || n = 0xb || n = 0xc || (0x1c ≤ n && n ≤ 0x1e) ||
  n = 0x85 || n = 0x2028 || n = 0x2029

def pySplitlinesAux : List Char → List Char → List String
  | [], acc => if acc.isEmpty then [] else [String.mk acc.reverse]
  | '\r' :: '\n' :: rest, acc => String.mk acc.reverse :: pySplitlinesAux rest []
  | c :: rest, acc =>
    if pyIsLineBreak c then
      String.mk acc.reverse :: pySplitlinesAux rest []
    else
      pySplitlinesAux rest (c :: acc)

/-- Python `str.splitlines()` (no `keepends`). -/
def pySplitlines (s : String) : List String :=
  pySplitlinesAux s.data []

/-- Python `str.split("\n")` on a character list: split at every `\n`,
keeping empty pieces (so the empty string yields one empty piece). -/
def splitNl : List Char → List (List Char)
  | [] => [[]]
  | c :: rest =>
    if c = '\n' then [] :: splitNl rest
    else
      match splitNl rest with
      | p :: ps => (c :: p) :: ps
      | [] => [[c]]

/-- Join with `\n`, the inverse direction of `splitNl`. -/
def joinNl : List (List Char) → List Char
  | [] => []
  | [l] => l
  | l :: rest => l ++ '\n' :: joinNl rest

/-! ## `textwrap.dedent`

CPython's `textwrap.dedent`: first every line (split at `\n`) that is
non-empty and made only of spaces and tabs is emptied
(`_whitespace_only_re`); then the margin is the longest common prefix of
the leading space/tab runs of the lines that still have content
(`_leading_whitespace_re`); finally that margin is removed from the
start of every line that carries it. -/

def isSpaceTab (c : Char) : Bool := c = ' ' || c = '\t'

def blankToEmpty (l : List Char) : List Char :=
  if !l.isEmpty && l.all isSpaceTab then [] else l

def marginMeet : List Char → List Char → List Char
  | x :: xs, y :: ys => if x = y then x :: marginMeet xs ys else []
  | _, _ => []

def lineIndent (l : List Char) : Option (List Char) :=
  if l.any (fun c => !isSpaceTab c) then some (l.takeWhile isSpaceTab) else none

def pyDedent (s : String) : String :=
  let ls := (splitNl s.data).map blankToEmpty
  let indents := ls.filterMap lineIndent
  let margin :=
    match indents with
    | [] => []
    | i :: rest => rest.foldl marginMeet i
  let ls2 :=
    if margin.isEmpty then ls
    else ls.map (fun l =>
      if margin.isPrefixOf l then l.drop margin.length else l)
  String.mk (joinNl ls2)

/-! ## The three line regexes of the legacy parser

```
TC_HEADER_RE = ^\s*(TC[-\s]*\d+)\s+[—-]\s+(.+?)\s*$
STEP_RE      = ^\s*(\d+)\.\s*(.+?)\s*$
EXPECT_RE    = ^\s*->\s*(.+?)\s*$
```

applied with `.match` (anchored at the start; `$` forces the end since
lines carry no newline).  At every juncture of these patterns the
character class of a greedy repetition is disjoint from what must follow
it, so maximal munch reproduces the backtracking regex semantics; the
only backtracking point is the final `\s*(.+?)\s*$`, captured by
`tailGroup` below. -/

/-- Group capture for a trailing `\s*(.+?)\s*$` (the `\s` quantifier is
`*`): `ws` is the greedy whitespace run already consumed, `r` the rest.
If `r` is non-empty the group is `r` without its trailing whitespace;
otherwise the regex backtracks and the group is the last whitespace
character of `ws` (needing `ws` non-empty).  `needWs` demands `\s+`
instead of `\s*`. -/
def tailGroup (needWs : Bool) (ws r : List Char) : Option (List Char) :=
  if r.isEmpty then
    -- group must come from the whitespace run: `.+?` takes its last char
    if needWs then
      if ws.length ≥ 2 then some [ws.getLastD ' '] else none
    else
      if ws.length ≥ 1 then some [ws.getLastD ' '] else none
  else
    if needWs && ws.isEmpty then none
    else some (pyRstripChars r)

/-- Characters admitted by the `[-\s]` class. -/
def dashOrSpace (c : Char) : Bool := c = '-' || pyIsSpace c

/-- `TC_HEADER_RE` applied to the line with its leading whitespace
already consumed by `^\s*`: returns the two capture groups. -/
def headerCore : List Char → Option (List Char × List Char)
  | c1 :: c2 :: r1 =>
    if c1 = 'T' ∧ c2 = 'C' then
      let sep := r1.takeWhile dashOrSpace
      let r2 := r1.dropWhile dashOrSpace
      let digits := r2.takeWhile Char.isDigit
      let r3 := r2.dropWhile Char.isDigit
      if digits.isEmpty then none
      else
        let ws1 := r3.takeWhile pyIsSpace
        let r4 := r3.dropWhile pyIsSpace
        if ws1.isEmpty then none
        else
          match r4 with
          | d :: r5 =>
            if d = '—' ∨ d = '-' then
              let ws2 := r5.takeWhile pyIsSpace
              let r6 := r5.dropWhile pyIsSpace
              match tailGroup true ws2 r6 with
              | some g => some (c1 :: c2 :: (sep ++ digits), g)
              | none => none
            else none
          | [] => none
    else none
  | _ => none

/-- `STEP_RE` likewise. -/
def stepCore (rest : List Char) : Option (List Char × List Char) :=
  let digits := rest.takeWhile Char.isDigit
  let r2 := rest.dropWhile Char.isDigit
  if digits.isEmpty then none
  else
    match r2 with
    | c :: r3 =>
      if c = '.' then
        let ws := r3.takeWhile pyIsSpace
        let r4 := r3.dropWhile pyIsSpace
        match tailGroup false ws r4 with
        | some g => some (digits, g)
        | none => none
      else none
    | [] => none

/-- `EXPECT_RE` likewise. -/
def expectCore : List Char → Option (List Char)
  | c1 :: c2 :: r3 =>
    if c1 = '-' ∧ c2 = '>' then
      let ws := r3.takeWhile pyIsSpace
      let r4 := r3.dropWhile pyIsSpace
      match tailGroup false ws r4 with
      | some g => some g
      | none => none
    else none
  | _ => none

/-- `TC_HEADER_RE.match(line)`: returns `(group 1, group 2)`. -/
def matchHeader (line : String) : Option (String × String) :=
  (headerCore (line.data.dropWhile pyIsSpace)).map
    (fun p => (String.mk p.1, String.mk p.2))

/-- `STEP_RE.match(line)`: returns `(group 1, group 2)`. -/
def matchStep (line : String) : Option (String × String) :=
  (stepCore (line.data.dropWhile pyIsSpace)).map
    (fun p => (String.mk p.1, String.mk p.2))

/-- `EXPECT_RE.match(line)`: returns group 1. -/
def matchExpect (line : String) : Option String :=
  (expectCore (line.data.dropWhile pyIsSpace)).map String.mk

/-! ## The record schema -/

structure TestStep where
  step : String
  expected : String
deriving Repr, DecidableEq

structure TestCase where
  id : String
  title : String
  priority : String
  type : String
  steps : List TestStep
deriving Repr, DecidableEq

/-- `id.replace(" ", "")`: removes every space character (the pattern is
the single character `" "`). -/
def removeSpaces (s : String) : String :=
  String.mk (s.data.filter (fun c => c ≠ ' '))

/-- Loop state: `cases` is the accumulated result list and `current` the
open case.  Python uses the truthiness of the dict `current`, which is
`{}` (falsy) exactly when no case is open, and otherwise always a full
record, so an `Option` is faithful. -/
structure ParseState where
  cases : List TestCase
  current : Option TestCase
deriving Repr, DecidableEq

/-- Replace the last element of a step list. -/
def modifyLast (f : TestStep → TestStep) : List TestStep → List TestStep
  | [] => []
  | [s] => [f s]
  | s :: s2 :: rest => s :: modifyLast f (s2 :: rest)

/-- One iteration of the `for line in lines` loop of
`parse_legacy_testcases_blob`.  The branches appear in source order:
header, step, expected, continuation.  (Python's `if "steps" not in
current` before a push is dead code — every dict assigned to `current`
carries a `"steps"` key — so it has no counterpart here.) -/
def processLine (st : ParseState) (line : String) : ParseState :=
  match matchHeader line with
  | some (gid, gtitle) =>
    let pushed :=
      match st.current with
      | some c => st.cases ++ [c]
      | none => st.cases
    let fresh : TestCase :=
      { id := removeSpaces gid, title := pyStrip gtitle,
        priority := "", type := "", steps := [] }
    { cases := pushed, current := some fresh }
  | none =>
    match matchStep line with
    | some (_, gaction) =>
      let c := st.current.getD
        { id := "TC-1", title := "", priority := "", type := "", steps := [] }
      let c2 := { c with steps := c.steps ++ [{ step := pyStrip gaction, expected := "" }] }
      { st with current := some c2 }
    | none =>
      match st.current with
      | some c =>
        if c.steps.isEmpty then st   -- both remaining branches need steps; line dropped
        else
          match matchExpect line with
          | some gexp =>
            let steps2 := modifyLast (fun s => { s with expected := pyStrip gexp }) c.steps
            { st with current := some { c with steps := steps2 } }
          | none =>
            -- continuation line
            let cont := fun (s : TestStep) =>
              if s.expected ≠ "" then
                { s with expected := s.expected ++ " " ++ pyStrip line }
              else
                { s with step := s.step ++ " " ++ pyStrip line }
            let steps2 := modifyLast cont c.steps
            { st with current := some { c with steps := steps2 } }
      | none => st

/-- The code after the loop: an open case is pushed (again, the
`"steps" not in current` guard is dead). -/
def finalize (st : ParseState) : List TestCase :=
  match st.current with
  | some c => st.cases ++ [c]
  | none => st.cases

/-- `for i, tc in enumerate(cases, start=1): if not tc.get("id"): ...` -/
def ensureIdsFrom (i : Nat) : List TestCase → List TestCase
  | [] => []
  | tc :: rest =>
    (if tc.id = "" then { tc with id := "TC-" ++ toString i } else tc)
      :: ensureIdsFrom (i + 1) rest

def ensureIds (cases : List TestCase) : List TestCase :=
  ensureIdsFrom 1 cases

/-- `[l.rstrip() for l in blob.splitlines() if l.strip()]` applied to
`textwrap.dedent(blob or "").strip()`.  (`blob or ""` guards a `None`
argument, which a `String` cannot be.) -/
def legacyLines (blob : String) : List String :=
  ((pySplitlines (pyStrip (pyDedent blob))).filter
      (fun l => pyStrip l ≠ "")).map pyRstrip

/-- The loop and finalization, before the id post-pass. -/
def coreCases (blob : String) : List TestCase :=
  finalize ((legacyLines blob).foldl processLine ⟨[], none⟩)

/-- `parse_legacy_testcases_blob` from `generate_pdf.py`. -/
def parse_legacy_testcases_blob (blob : String) : List TestCase :=
  if pyStrip (pyDedent blob) = "" then []
  else ensureIds (coreCases blob)

/-! ## A model of `json.loads`

Values are as Python's decoder produces them, except that every number is
kept as the scanned mantissa and decimal exponent, so `num m e` denotes
`m * 10 ^ e` (Python would convert to `int` or to a rounded `Float`;
no claim inspects a numeric value beyond its shape), and the non-finite
literals `NaN`/`Infinity`/`-Infinity`, which Python accepts, are kept
symbolically.  Duplicate object keys are kept in parse order (Python's
dict would keep the last one; no claim compares such objects).  Lone
surrogate `\u` escapes, which Python tolerates inside strings, have no
`Char` representation and are not modelled. -/

inductive Json where
  | null
  | bool (b : Bool)
  | num (mant : Int) (exp10 : Int := 0)
  | nonfinite (lit : String)
  | str (s : String)
  | arr (elems : List Json)
  | obj (members : List (String × Json))

/-- The whitespace `json.loads` skips between tokens. -/
def jsonWs (c : Char) : Bool :=
  c = ' ' || c = '\t' || c = '\n' || c = '\r'

def skipJWs (cs : List Char) : List Char :=
  cs.dropWhile jsonWs

/-- The value of one hexadecimal digit (both cases accepted). -/
def hexDigitVal (c : Char) : Option Nat :=
  let n := c.toNat
  if 0x30 ≤ n ∧ n ≤ 0x39 then some (n - 0x30)
  else if 0x61 ≤ n ∧ n ≤ 0x66 then some (n - 0x57)
  else if 0x41 ≤ n ∧ n ≤ 0x46 then some (n - 0x37)
  else none

/-- The code unit named by the four digits of a `\u` escape. -/
def hexQuad (h1 h2 h3 h4 : Char) : Option Nat :=
  match hexDigitVal h1, hexDigitVal h2, hexDigitVal h3, hexDigitVal h4 with
  | some a, some b, some c, some d => some (4096 * a + 256 * b + 16 * c + d)
  | _, _, _, _ => none

/-- The single-character escapes of a JSON string. -/
def escMap (e : Char) : Option Char :=
  if e = '"' then some '"'
  else if e = '\\' then some '\\'
  else if e = '/' then some '/'
  else if e = 'b' then some '\x08'
  else if e = 'f' then some '\x0c'
  else if e = 'n' then some '\n'
  else if e = 'r' then some '\r'
  else if e = 't' then some '\t'
  else none

/-- The body of a JSON string, after the opening quote.  Unescaped
control characters are rejected (Python's default `strict=True`). -/
def parseJString : List Char → Option (List Char × List Char)
  | [] => none
  | '"' :: rest => some ([], rest)
  | '\\' :: 'u' :: rest0 =>
    match rest0 with
    | h1 :: h2 :: h3 :: h4 :: rest =>
      match hexQuad h1 h2 h3 h4 with
      | none => none
      | some n =>
        if 0xd800 ≤ n && n ≤ 0xdbff then
          -- high surrogate: must pair with a following low surrogate
          match rest with
          | '\\' :: 'u' :: g1 :: g2 :: g3 :: g4 :: rest2 =>
            match hexQuad g1 g2 g3 g4 with
            | none => none
            | some m =>
              if 0xdc00 ≤ m && m ≤ 0xdfff then
                match parseJString rest2 with
                | some (s, r) =>
                  some (Char.ofNat (0x10000 + (n - 0xd800) * 0x400 + (m - 0xdc00)) :: s, r)
                | none => none
              else none
          | _ => none
        else if 0xdc00 ≤ n && n ≤ 0xdfff then none
        else
          match parseJString rest with
          | some (s, r) => some (Char.ofNat n :: s, r)
          | none => none
    | _ => none
  | '\\' :: e :: rest =>
    match escMap e, parseJString rest with
    | some c, some (s, r) => some (c :: s, r)
    | _, _ => none
  | c :: rest =>
    if c.toNat < 0x20 then none
    else
      match parseJString rest with
      | some (s, r) => some (c :: s, r)
      | none => none

def digitsToNat (ds : List Char) : Nat :=
  ds.foldl (fun acc d => acc * 10 + (d.toNat - '0'.toNat)) 0

/-- A JSON number literal: `int frac? exp?` with `int` either `0` or a
non-zero digit followed by digits (so `01` parses as `0` with `1` left
over, exactly as Python's scanner leaves it to fail as extra data). -/
def parseJNum (cs : List Char) : Option (Json × List Char) :=
  let neg : Bool := cs.head? == some '-'
  let cs1 : List Char := if neg then cs.tail else cs
  let intRes : Option (Nat × List Char) :=
    match cs1 with
    | '0' :: r => some (0, r)
    | c :: _ =>
      if c.isDigit then
        let (ds, r) := cs1.span Char.isDigit
        some (digitsToNat ds, r)
      else none
    | [] => none
  match intRes with
  | none => none
  | some (ip, cs2) =>
    -- fraction digits extend the mantissa and count against the exponent
    let fracRes : Option (Nat × Nat × List Char) :=
      match cs2 with
      | '.' :: r =>
        let (ds, r2) := r.span Char.isDigit
        if ds.isEmpty then none
        else some (ip * 10 ^ ds.length + digitsToNat ds, ds.length, r2)
      | _ => some (ip, 0, cs2)
    match fracRes with
    | none => none
    | some (mant, fracLen, cs3) =>
      let expRes : Option (Int × List Char) :=
        match cs3 with
        | 'e' :: r | 'E' :: r =>
          let (esign, r1) :=
            match r with
            | '+' :: r2 => ((1 : Int), r2)
            | '-' :: r2 => ((-1 : Int), r2)
            | _ => ((1 : Int), r)
          let (ds, r2) := r1.span Char.isDigit
          if ds.isEmpty then none else some (esign * (digitsToNat ds : Int), r2)
        | _ => some (0, cs3)
      match expRes with
      | none => none
      | some (ex, cs4) =>
        let m : Int := if neg then -(mant : Int) else (mant : Int)
        some (Json.num m (ex - (fracLen : Int)), cs4)

inductive JMode where
  | val
  | elems
  | members

inductive JOut where
  | v (j : Json)
  | vs (l : List Json)
  | kvs (l : List (String × Json))

/-- Consume a literal keyword prefix. -/
def dropLit : List Char → List Char → Option (List Char)
  | [], cs => some cs
  | l :: ls, c :: cs => if c = l then dropLit ls cs else none
  | _ :: _, [] => none

/-- The literal tokens the Python scanner recognises besides the
bracketed forms: each pairs a keyword with its value. -/
def jsonLiterals : List (String × Json) :=
  [("null", .null), ("true", .bool true), ("false", .bool false),
   ("NaN", .nonfinite "NaN"), ("Infinity", .nonfinite "Infinity"),
   ("-Infinity", .nonfinite "-Infinity")]

/-- The first keyword of `jsonLiterals` that prefixes the input. -/
def matchLiteral (cs : List Char) : Option (Json × List Char) :=
  jsonLiterals.firstM (fun kv =>
    (dropLit kv.1.data cs).map (fun r => (kv.2, r)))

/-- The recursive-descent core of `json.loads`, structurally recursive on
a fuel argument so that it evaluates by kernel reduction.  `.val` parses
one value (leading whitespace already skipped), `.elems` the remainder of
a non-empty array body, `.members` the remainder of a non-empty object
body. -/
def parseJ : Nat → JMode → List Char → Option (JOut × List Char)
  | 0, _, _ => none
  | Nat.succ f, .val, cs =>
    match cs with
    | '"' :: r =>
      match parseJString r with
      | some (s, r2) => some (.v (.str (String.mk s)), r2)
      | none => none
    | '[' :: r =>
      let r1 := skipJWs r
      match r1 with
      | ']' :: r2 => some (.v (.arr []), r2)
      | _ =>
        match parseJ f .elems r1 with
        | some (.vs l, r2) => some (.v (.arr l), r2)
        | _ => none
    | '\x7b' :: r =>
      let r1 := skipJWs r
      match r1 with
      | '\x7d' :: r2 => some (.v (.obj []), r2)
      | _ =>
        match parseJ f .members r1 with
        | some (.kvs l, r2) => some (.v (.obj l), r2)
        | _ => none
    | _ =>
      match matchLiteral cs with
      | some (j, r) => some (.v j, r)
      | none => parseJNum cs |>.map (fun (j, r) => (.v j, r))
  | Nat.succ f, .elems, cs =>
    match parseJ f .val cs with
    | some (.v j, r) =>
      let r1 := skipJWs r
      match r1 with
      | ',' :: r2 =>
        match parseJ f .elems (skipJWs r2) with
        | some (.vs l, r3) => some (.vs (j :: l), r3)
        | _ => none
      | ']' :: r2 => some (.vs [j], r2)
      | _ => none
    | _ => none
  | Nat.succ f, .members, cs =>
    match cs with
    | '"' :: r =>
      match parseJString r with
      | some (k, r1) =>
        match skipJWs r1 with
        | ':' :: r2 =>
          match parseJ f .val (skipJWs r2) with
          | some (.v j, r3) =>
            let r4 := skipJWs r3
            match r4 with
            | ',' :: r5 =>
              match parseJ f .members (skipJWs r5) with
              | some (.kvs l, r6) => some (.kvs ((String.mk k, j) :: l), r6)
              | _ => none
            | '\x7d' :: r5 => some (.kvs [(String.mk k, j)], r5)
            | _ => none
          | _ => none
        | _ => none
      | none => none
    | _ => none

/-- `json.loads`: parse one value surrounded by optional whitespace;
anything left over is `Extra data` and the parse fails.  A `none` result
stands for a raised `JSONDecodeError`. -/
def json_loads (s : String) : Option Json :=
  let cs := skipJWs s.data
  match parseJ (2 * cs.length + 8) .val cs with
  | some (.v v, rest) => if (skipJWs rest).isEmpty then some v else none
  | _ => none

/-! ## `_json_from_text` from `app.py`

```
txt = txt.strip()
if txt.startswith("```"):
    txt = re.sub(r"^```(json)?\\s*|\\s*```$", "", txt, flags=re.S)
try: return json.loads(txt)
except Exception:
    m = re.search(r"\\{.*\\}", txt, flags=re.S)
    if m: return json.loads(m.group(0))
    return \x7b"test_cases": []\x7d
```

Both patterns are RAW strings with doubled backslashes, so in the regex
`\\` matches one literal backslash character: the fence pattern's first
branch is three backticks, an optional `json`, a mandatory backslash and
a run of letter `s`; its second branch is a backslash, a run of `s` and
the closing backticks at the very end (`$` also matches just before one
final newline).  The search pattern matches a literal backslash, an
opening brace, anything (DOTALL), a literal backslash and a closing
brace. -/

def dropSRun (cs : List Char) : List Char :=
  cs.dropWhile (fun c => c = 's')

/-- First alternation branch, anchored at the start. -/
def fenceB1 : List Char → Option (List Char)
  | '`' :: '`' :: '`' :: 'j' :: 's' :: 'o' :: 'n' :: '\\' :: r => some (dropSRun r)
  | '`' :: '`' :: '`' :: '\\' :: r => some (dropSRun r)
  | _ => none

/-- Second alternation branch, tried at one scan position. -/
def fenceB2 : List Char → Option (List Char)
  | '\\' :: r =>
    match dropSRun r with
    | '`' :: '`' :: '`' :: [] => some []
    | '`' :: '`' :: '`' :: '\n' :: [] => some ['\n']
    | _ => none
  | _ => none

def fenceScan : List Char → List Char
  | [] => []
  | c :: rest =>
    match fenceB2 (c :: rest) with
    | some r => r   -- what remains is at most a final newline: no further match
    | none => c :: fenceScan rest

/-- `re.sub(r"^```(json)?\\s*|\\s*```$", "", txt, flags=re.S)`. -/
def fenceSub (txt : String) : String :=
  let cs :=
    match fenceB1 txt.data with
    | some r => r
    | none => txt.data
  String.mk (fenceScan cs)

/-- `txt.startswith("```")`. -/
def startsFence : List Char → Bool
  | '`' :: '`' :: '`' :: _ => true
  | _ => false

/-- Indices `i` such that `cs[i] = a` and `cs[i+1] = b`. -/
def idxPairs (a b : Char) : List Char → List Nat
  | x :: y :: rest =>
    if x = a ∧ y = b then 0 :: (idxPairs a b (y :: rest)).map (· + 1)
    else (idxPairs a b (y :: rest)).map (· + 1)
  | _ => []

/-- `re.search(r"\\{.*\\}", txt, flags=re.S)`: the match, if any, runs
from the first backslash-open-brace to the end of the last
backslash-close-brace (leftmost start, then greedy `.*`). -/
def braceGroup (cs : List Char) : Option (List Char) :=
  match (idxPairs '\\' '\x7b' cs).head?, (idxPairs '\\' '\x7d' cs).getLast? with
  | some p, some q =>
    if p + 2 ≤ q then some ((cs.drop p).take (q + 2 - p)) else none
  | _, _ => none

def emptyTestCases : Json := Json.obj [("test_cases", Json.arr [])]

/-- The text `_json_from_text` hands to its first `json.loads` call. -/
def fencePiped (txt : String) : String :=
  let t := pyStrip txt
  if startsFence t.data then fenceSub t else t

/-- `_json_from_text` from `app.py`.  The first `json.loads` is guarded
by `try`; the one applied to the searched group is not, so its failure is
an uncaught `JSONDecodeError`, modelled as `.error`. -/
def json_from_text (txt : String) : Except String Json :=
  let t := fencePiped txt
  match json_loads t with
  | some v => .ok v
  | none =>
    match braceGroup t.data with
    | some g =>
      match json_loads (String.mk g) with
      | some v => .ok v
      | none => .error "JSONDecodeError"
    | none => .ok emptyTestCases

/-! ## `call_model` from `generate_pdf.py`

The OpenAI client is the one unmodelled collaborator: `responses i` is
the (already delivered) text of the `i`-th reply.  Here the fence-strip
regexes are written with single backslashes, so they behave as intended:
`^```(\w+)?\s*` and `\s*```$` (the `\w` class is modelled over ASCII;
non-ASCII word characters do not appear in any claim). -/

def isWordChar (c : Char) : Bool :=
  c.isAlphanum || c = '_'

/-- `re.sub(r"^```(\w+)?\s*", "", txt)`: one match, at the start. -/
def cliSub1 (cs : List Char) : List Char :=
  match cs with
  | '`' :: '`' :: '`' :: r => (r.dropWhile isWordChar).dropWhile pyIsSpace
  | _ => cs

/-- `re.sub(r"\s*```$", "", txt)`: removes the closing fence and the
whitespace run just before it; `$` also matches before one final
newline. -/
def cliSub2 (cs : List Char) : List Char :=
  match cs.reverse with
  | '`' :: '`' :: '`' :: r => (r.dropWhile pyIsSpace).reverse
  | '\n' :: '`' :: '`' :: '`' :: r => (r.dropWhile pyIsSpace).reverse ++ ['\n']
  | _ => cs

/-- Python `key in s` substring test on strings. -/
def strContainsAux (needle : List Char) : List Char → Bool
  | [] => needle.isEmpty
  | c :: rest => needle.isPrefixOf (c :: rest) || strContainsAux needle rest

/-- Python `key in data` on a parsed JSON value: key lookup for objects,
element equality for arrays (only a string equal to `key` compares
true), substring test for strings.  On numbers, booleans and `null`,
`in` raises `TypeError`; `none` stands for that. -/
def pyContains (key : String) : Json → Option Bool
  | .obj kvs => some (kvs.any (fun kv => kv.1 == key))
  | .arr xs =>
    some (xs.any (fun x =>
      match x with
      | .str s => s == key
      | _ => false))
  | .str s => some (strContainsAux key.data s.data)
  | _ => none

def requiredKeys : List String := ["metadata", "design", "traceability", "test_cases"]

/-- The `for key in [...]` validation loop succeeds iff no iteration
raises: `ValueError` for a key whose `in` test is false, or the
`TypeError` from `in` itself. -/
def keysOk (d : Json) : Bool :=
  requiredKeys.all (fun k => (pyContains k d).getD false)

/-- One loop iteration of `call_model` applied to a reply text: strip,
strip the code fence if present, `json.loads`, require the four keys.
Any exception is caught by the `except` and gives `none`. -/
def attemptParse (raw : String) : Option Json :=
  let t0 := pyStrip raw
  let t :=
    if startsFence t0.data then pyStrip (String.mk (cliSub2 (cliSub1 t0.data)))
    else t0
  match json_loads t with
  | some d => if keysOk d then some d else none
  | none => none

/-- `for _ in range(max_retries + 1)` with the trailing
`raise RuntimeError(...)`: `i` is the index of the next reply, the `Nat`
argument the number of attempts still allowed. -/
def callModelAux (responses : Nat → String) (i : Nat) : Nat → Except String Json
  | 0 => .error "RuntimeError: Failed to parse model JSON."
  | Nat.succ k =>
    match attemptParse (responses i) with
    | some d => .ok d
    | none => callModelAux responses (i + 1) k

/-- `call_model` from `generate_pdf.py` (its network call abstracted into
`responses`). -/
def call_model (responses : Nat → String) (max_retries : Nat) : Except String Json :=
  callModelAux responses 0 (max_retries + 1)

/-- The top-level keys of a parsed JSON value, when it is an object. -/
def Json.topKeys : Json → Option (List String)
  | .obj kvs => some (kvs.map Prod.fst)
  | _ => none

/-- Whether a parsed JSON value is an object. -/
def Json.isObj : Json → Bool
  | .obj _ => true
  | _ => false

/-! ## Auxiliary definitions used by the statements -/

/-- The id convention the parser establishes: the string begins with
`TC`. -/
def startsTC (s : String) : Bool :=
  match s.data with
  | 'T' :: 'C' :: _ => true
  | _ => false

/-- The steps of the currently open case (empty when no case is open). -/
def currentSteps (st : ParseState) : List TestStep :=
  match st.current with
  | some c => c.steps
  | none => []

/-- An `Option TestCase` as a zero- or one-element list. -/
def optCase : Option TestCase → List TestCase
  | some c => [c]
  | none => []

/-- How the open case's step list may change across one loop iteration:
unchanged, one step appended at the end, or only the last step edited in
place.  Earlier steps are never touched, removed, duplicated or
reordered. -/
def stepsEvolve (old new : List TestStep) : Prop :=
  new = old ∨ (∃ s, new = old ++ [s]) ∨
    (∃ pre a b, old = pre ++ [a] ∧ new = pre ++ [b])

/-- Whether a string contains an opening brace character. -/
def hasBraceChar (s : String) : Bool :=
  s.data.any (fun c => c = '\x7b')

/-- Invariant maintained by the parser loop: every finished and open
case has an id beginning with `TC`. -/
def idsOk (st : ParseState) : Prop :=
  (∀ c ∈ st.cases, startsTC c.id = true) ∧
    (∀ c, st.current = some c → startsTC c.id = true)

/-! ## Lemmas about the line matchers -/

theorem expectCore_head {d : List Char} {g : List Char} (h : expectCore d = some g) :
    ∃ r, d = '-' :: '>' :: r := by
  match d with
  | [] => cases h
  | [c] => cases h
  | c1 :: c2 :: r =>
    by_cases hc : c1 = '-' ∧ c2 = '>'
    · exact ⟨r, by rw [hc.1, hc.2]⟩
    · simp only [expectCore, if_neg hc] at h
      cases h

theorem headerCore_none_of_expect {d : List Char} {g : List Char}
    (h : expectCore d = some g) : headerCore d = none := by
  obtain ⟨r, rfl⟩ := expectCore_head h
  simp only [headerCore, if_neg (by decide : ¬('-' = 'T' ∧ '>' = 'C'))]

theorem stepCore_none_of_expect {d : List Char} {g : List Char}
    (h : expectCore d = some g) : stepCore d = none := by
  obtain ⟨r, rfl⟩ := expectCore_head h
  simp [stepCore, List.takeWhile]

theorem stepCore_head {d : List Char} {p : List Char × List Char}
    (h : stepCore d = some p) : ∃ c r, d = c :: r ∧ Char.isDigit c = true := by
  match d with
  | [] => simp [stepCore, List.takeWhile] at h
  | c :: r =>
    by_cases hc : Char.isDigit c
    · exact ⟨c, r, rfl, hc⟩
    · rw [show stepCore (c :: r) = none by
        simp [stepCore, List.takeWhile_cons_of_neg (by simpa using hc)]] at h
      cases h

theorem headerCore_none_of_step {d : List Char} {p : List Char × List Char}
    (h : stepCore d = some p) : headerCore d = none := by
  obtain ⟨c, r, rfl, hc⟩ := stepCore_head h
  match r with
  | [] => rfl
  | c2 :: r2 =>
    simp only [headerCore]
    rw [if_neg (by rintro ⟨rfl, -⟩; exact absurd hc (by decide))]

theorem headerCore_shape {d i t : List Char} (h : headerCore d = some (i, t)) :
    ∃ r, i = 'T' :: 'C' :: r := by
  match d with
  | [] => cases h
  | [c] => cases h
  | c1 :: c2 :: r1 =>
    simp only [headerCore] at h
    by_cases hc : c1 = 'T' ∧ c2 = 'C'
    · obtain ⟨rfl, rfl⟩ := hc
      rw [if_pos ⟨rfl, rfl⟩] at h
      split at h
      · cases h
      · split at h
        · cases h
        · split at h
          · split at h
            · split at h
              · exact ⟨_, ((Prod.mk.injEq ..).mp (Option.some.injEq _ _ ▸ h :)).1.symm⟩
              · cases h
            · cases h
          · cases h
    · rw [if_neg hc] at h; cases h

/-- The `String`-level consequences. -/
theorem matchHeader_none_of_expect {line g : String}
    (h : matchExpect line = some g) : matchHeader line = none := by
  unfold matchExpect at h
  unfold matchHeader
  cases he : expectCore (line.data.dropWhile pyIsSpace) with
  | none => rw [he] at h; cases h
  | some g0 => rw [headerCore_none_of_expect he]; rfl

theorem matchStep_none_of_expect {line g : String}
    (h : matchExpect line = some g) : matchStep line = none := by
  unfold matchExpect at h
  unfold matchStep
  cases he : expectCore (line.data.dropWhile pyIsSpace) with
  | none => rw [he] at h; cases h
  | some g0 => rw [stepCore_none_of_expect he]; rfl

theorem matchHeader_none_of_step {line : String} {p : String × String}
    (h : matchStep line = some p) : matchHeader line = none := by
  unfold matchStep at h
  unfold matchHeader
  cases he : stepCore (line.data.dropWhile pyIsSpace) with
  | none => rw [he] at h; cases h
  | some p0 => rw [headerCore_none_of_step he]; rfl

theorem matchHeader_id_shape {line : String} {i t : String}
    (h : matchHeader line = some (i, t)) : ∃ r, i = String.mk ('T' :: 'C' :: r) := by
  unfold matchHeader at h
  cases he : headerCore (line.data.dropWhile pyIsSpace) with
  | none => rw [he] at h; cases h
  | some p =>
    rw [he] at h
    simp only [Option.map_some'] at h
    obtain ⟨r, hr⟩ := headerCore_shape (i := p.1) (t := p.2) (by rw [he])
    cases h
    exact ⟨r, by rw [hr]⟩

/-! ## Lemmas about one loop iteration -/

theorem modifyLast_concat (f : TestStep → TestStep) (pre : List TestStep) (a : TestStep) :
    modifyLast f (pre ++ [a]) = pre ++ [f a] := by
  induction pre with
  | nil => rfl
  | cons x xs ih =>
    rcases e : xs ++ [a] with _ | ⟨z, zs⟩
    · simp at e
    · calc modifyLast f ((x :: xs) ++ [a]) = x :: modifyLast f (xs ++ [a]) := by
            rw [List.cons_append, e]; rfl
        _ = (x :: xs) ++ [f a] := by rw [ih]; rfl

/-- A header line pushes the open case (if any) and opens a fresh one. -/
theorem processLine_header {st : ParseState} {line : String} {i t : String}
    (hH : matchHeader line = some (i, t)) :
    processLine st line =
      ⟨st.cases ++ optCase st.current,
       some ⟨removeSpaces i, pyStrip t, "", "", []⟩⟩ := by
  unfold processLine
  rw [hH]
  cases hc : st.current <;> simp [optCase, hc]

/-- A step line with no open case synthesizes the default `TC-1` case. -/
theorem processLine_step_none {st : ParseState} {line : String} {n a : String}
    (hcur : st.current = none) (hS : matchStep line = some (n, a)) :
    processLine st line =
      ⟨st.cases, some ⟨"TC-1", "", "", "", [⟨pyStrip a, ""⟩]⟩⟩ := by
  unfold processLine
  rw [matchHeader_none_of_step hS, hS, hcur]
  rfl

/-- A step line with an open case appends a fresh step to it. -/
theorem processLine_step_some {st : ParseState} {line : String} {n a : String} {c : TestCase}
    (hcur : st.current = some c) (hS : matchStep line = some (n, a)) :
    processLine st line =
      { st with current := some { c with steps := c.steps ++ [⟨pyStrip a, ""⟩] } } := by
  unfold processLine
  rw [matchHeader_none_of_step hS, hS, hcur]
  rfl

/-- An expected-result line with an open, non-empty case assigns (not
appends) the stripped text to the last step's `expected`. -/
theorem processLine_expect_assigns {st : ParseState} {line : String} {gexp : String}
    {c : TestCase} {pre : List TestStep} {s : TestStep}
    (hcur : st.current = some c) (hsteps : c.steps = pre ++ [s])
    (hE : matchExpect line = some gexp) :
    processLine st line =
      { st with current := some { c with steps := pre ++ [{ s with expected := pyStrip gexp }] } } := by
  unfold processLine
  rw [matchHeader_none_of_expect hE, matchStep_none_of_expect hE, hcur, hE]
  simp [hsteps, modifyLast_concat]

/-- A continuation line edits the last step in place. -/
theorem processLine_cont {st : ParseState} {line : String}
    {c : TestCase} {pre : List TestStep} {s : TestStep}
    (hcur : st.current = some c) (hsteps : c.steps = pre ++ [s])
    (hH : matchHeader line = none) (hS : matchStep line = none)
    (hE : matchExpect line = none) :
    processLine st line =
      { st with current := some { c with steps := pre ++
          [if s.expected ≠ "" then { s with expected := s.expected ++ " " ++ pyStrip line }
           else { s with step := s.step ++ " " ++ pyStrip line }] } } := by
  unfold processLine
  rw [hH, hS, hcur, hE]
  simp [hsteps, modifyLast_concat]

/-- A non-header, non-step line with no open case is dropped. -/
theorem processLine_drop_nocase {st : ParseState} {line : String}
    (hcur : st.current = none) (hH : matchHeader line = none) (hS : matchStep line = none) :
    processLine st line = st := by
  unfold processLine
  rw [hH, hS, hcur]

/-- A non-header, non-step line whose open case has no steps is
dropped. -/
theorem processLine_drop_nosteps {st : ParseState} {line : String} {c : TestCase}
    (hcur : st.current = some c) (hsteps : c.steps = [])
    (hH : matchHeader line = none) (hS : matchStep line = none) :
    processLine st line = st := by
  unfold processLine
  rw [hH, hS, hcur]
  simp [hsteps]

/-! ## The id invariant -/

theorem startsTC_removeSpaces (r : List Char) :
    startsTC (removeSpaces (String.mk ('T' :: 'C' :: r))) = true := by
  simp [removeSpaces, startsTC, List.filter]

theorem startsTC_ne_empty {s : String} (h : startsTC s = true) : s ≠ "" := by
  intro he
  rw [he] at h
  cases h

theorem ensureIdsFrom_eq_self {cs : List TestCase} (h : ∀ c ∈ cs, c.id ≠ "") :
    ∀ i, ensureIdsFrom i cs = cs := by
  induction cs with
  | nil => intro i; rfl
  | cons tc rest ih =>
    intro i
    unfold ensureIdsFrom
    rw [if_neg (h tc (by simp)), ih (fun c hc => h c (by simp [hc]))]

theorem processLine_idsOk {st : ParseState} {line : String} (h : idsOk st) :
    idsOk (processLine st line) := by
  obtain ⟨hcs, hcur'⟩ := h
  cases hH : matchHeader line with
  | some p =>
    obtain ⟨i, t⟩ := p
    obtain ⟨r, rfl⟩ := matchHeader_id_shape hH
    rw [processLine_header hH]
    refine ⟨?_, ?_⟩
    · intro c hc
      rcases List.mem_append.mp hc with hc | hc
      · exact hcs c hc
      · cases he : st.current with
        | none => rw [he] at hc; cases hc
        | some c0 =>
          rw [he] at hc
          obtain rfl : c = c0 := by simpa [optCase] using hc
          exact hcur' _ he
    · intro c hc
      cases hc
      exact startsTC_removeSpaces r
  | none =>
    cases hS : matchStep line with
    | some p =>
      obtain ⟨n, a⟩ := p
      cases he : st.current with
      | none =>
        rw [processLine_step_none he hS]
        exact ⟨hcs, fun c hc => by cases hc; rfl⟩
      | some c0 =>
        rw [processLine_step_some he hS]
        exact ⟨hcs, fun c hc => by cases hc; exact hcur' c0 he⟩
    | none =>
      cases he : st.current with
      | none => rw [processLine_drop_nocase he hH hS]; exact ⟨hcs, hcur'⟩
      | some c0 =>
        rcases List.eq_nil_or_concat c0.steps with hnil | ⟨pre, s, hconcat⟩
        · rw [processLine_drop_nosteps he hnil hH hS]; exact ⟨hcs, hcur'⟩
        · rw [List.concat_eq_append] at hconcat
          cases hE : matchExpect line with
          | some g =>
            rw [processLine_expect_assigns he hconcat hE]
            exact ⟨hcs, fun c hc => by cases hc; exact hcur' c0 he⟩
          | none =>
            rw [processLine_cont he hconcat hH hS hE]
            exact ⟨hcs, fun c hc => by cases hc; exact hcur' c0 he⟩

theorem foldl_idsOk (lines : List String) (st : ParseState) (h : idsOk st) :
    idsOk (lines.foldl processLine st) := by
  induction lines generalizing st with
  | nil => exact h
  | cons l rest ih => exact ih _ (processLine_idsOk h)

theorem coreCases_idsOk (blob : String) :
    ∀ c ∈ coreCases blob, startsTC c.id = true := by
  intro c hc
  have h := foldl_idsOk (legacyLines blob) ⟨[], none⟩ ⟨by simp, by simp⟩
  unfold coreCases finalize at hc
  rcases hcur : ((legacyLines blob).foldl processLine ⟨[], none⟩).current with _ | c0
  · rw [hcur] at hc
    exact h.1 c hc
  · rw [hcur] at hc
    rcases List.mem_append.mp hc with hc | hc
    · exact h.1 c hc
    · obtain rfl : c = c0 := by simpa using hc
      exact h.2 _ hcur

/-! ## The step-order evolution relation -/

theorem processLine_evolution (st : ParseState) (line : String) :
    ((processLine st line).cases = st.cases ∧
      stepsEvolve (currentSteps st) (currentSteps (processLine st line))) ∨
    ((processLine st line).cases = st.cases ++ optCase st.current ∧
      currentSteps (processLine st line) = []) := by
  cases hH : matchHeader line with
  | some p =>
    obtain ⟨i, t⟩ := p
    right
    rw [processLine_header hH]
    exact ⟨rfl, rfl⟩
  | none =>
    cases hS : matchStep line with
    | some p =>
      obtain ⟨n, a⟩ := p
      left
      cases he : st.current with
      | none =>
        rw [processLine_step_none he hS]
        exact ⟨rfl, Or.inr (Or.inl ⟨⟨pyStrip a, ""⟩, by simp [currentSteps, he]⟩)⟩
      | some c0 =>
        rw [processLine_step_some he hS]
        exact ⟨rfl, Or.inr (Or.inl ⟨⟨pyStrip a, ""⟩, by simp [currentSteps, he]⟩)⟩
    | none =>
      cases he : st.current with
      | none =>
        left
        rw [processLine_drop_nocase he hH hS]
        exact ⟨rfl, Or.inl rfl⟩
      | some c0 =>
        rcases List.eq_nil_or_concat c0.steps with hnil | ⟨pre, s, hconcat⟩
        · left
          rw [processLine_drop_nosteps he hnil hH hS]
          exact ⟨rfl, Or.inl rfl⟩
        · rw [List.concat_eq_append] at hconcat
          cases hE : matchExpect line with
          | some g =>
            left
            rw [processLine_expect_assigns he hconcat hE]
            exact ⟨rfl, Or.inr (Or.inr ⟨pre, s, { s with expected := pyStrip g },
              by simp [currentSteps, he, hconcat], by simp [currentSteps]⟩)⟩
          | none =>
            left
            rw [processLine_cont he hconcat hH hS hE]
            refine ⟨rfl, Or.inr (Or.inr ⟨pre, s,
              (if s.expected ≠ "" then { s with expected := s.expected ++ " " ++ pyStrip line }
               else { s with step := s.step ++ " " ++ pyStrip line }),
              by simp [currentSteps, he, hconcat], by simp [currentSteps]⟩)⟩

theorem finalize_eq (st : ParseState) : finalize st = st.cases ++ optCase st.current := by
  unfold finalize
  cases st.current <;> simp [optCase]

theorem ensureIdsFrom_steps (i : Nat) (cs : List TestCase) :
    (ensureIdsFrom i cs).map TestCase.steps = cs.map TestCase.steps := by
  induction cs generalizing i with
  | nil => rfl
  | cons tc rest ih =>
    unfold ensureIdsFrom
    by_cases h : tc.id = ""
    · rw [if_pos h]; simp [ih]
    · rw [if_neg h]; simp [ih]

/-! ## Lemmas about `call_model` -/

theorem attemptParse_keysOk {raw : String} {d : Json}
    (h : attemptParse raw = some d) : keysOk d = true := by
  simp only [attemptParse] at h
  split at h
  · split at h
    · cases h; assumption
    · cases h
  · cases h

theorem callModelAux_ok_keysOk {r : Nat → String} {i k : Nat} {d : Json}
    (h : callModelAux r i k = .ok d) : keysOk d = true := by
  induction k generalizing i with
  | zero => cases h
  | succ k ih =>
    unfold callModelAux at h
    cases ha : attemptParse (r i) with
    | some d0 =>
      rw [ha] at h
      cases h
      exact attemptParse_keysOk ha
    | none =>
      rw [ha] at h
      exact ih h

theorem callModelAux_ok_bound {r : Nat → String} {i k : Nat} {d : Json}
    (h : callModelAux r i k = .ok d) :
    ∃ j, j < k ∧ attemptParse (r (i + j)) = some d := by
  induction k generalizing i with
  | zero => cases h
  | succ k ih =>
    unfold callModelAux at h
    cases ha : attemptParse (r i) with
    | some d0 =>
      rw [ha] at h
      cases h
      exact ⟨0, Nat.succ_pos _, by simpa using ha⟩
    | none =>
      rw [ha] at h
      obtain ⟨j, hj, hatt⟩ := ih h
      exact ⟨j + 1, by omega, by rw [show i + (j + 1) = i + 1 + j by omega]; exact hatt⟩

theorem callModelAux_error {r : Nat → String} {i k : Nat}
    (h : ∀ j, j < k → attemptParse (r (i + j)) = none) :
    callModelAux r i k = .error "RuntimeError: Failed to parse model JSON." := by
  induction k generalizing i with
  | zero => rfl
  | succ k ih =>
    unfold callModelAux
    rw [show attemptParse (r i) = none by simpa using h 0 (Nat.succ_pos _)]
    exact ih (fun j hj => by
      rw [show i + 1 + j = i + (j + 1) by omega]
      exact h (j + 1) (by omega))

/-! ## The claims -/

/-- C1, counterexample: on `1. Step one` / `-> First` / `-> Second`, the
second expected-result line OVERWRITES the step's `expected` with
`Second`; the space-joined `First Second` the claim predicts is not
produced. -/
theorem c1_counterexample :
    parse_legacy_testcases_blob "1. Step one\n-> First\n-> Second" =
      [⟨"TC-1", "", "", "", [⟨"Step one", "Second"⟩]⟩] ∧
    parse_legacy_testcases_blob "1. Step one\n-> First\n-> Second" ≠
      [⟨"TC-1", "", "", "", [⟨"Step one", "First Second"⟩]⟩] := by
  exact ⟨by decide, by decide⟩

/-- C1 (amended): when two consecutive expected-result lines hit an open
case with at least one step, the second line's stripped text REPLACES
the most recent step's `expected` field (the assignment
`current["steps"][-1]["expected"] = ...` overwrites; nothing is
appended). -/
theorem c1_second_expect_replaces (st : ParseState) (line1 line2 : String)
    (g1 g2 : String) (c : TestCase) (pre : List TestStep) (s : TestStep)
    (hcur : st.current = some c) (hsteps : c.steps = pre ++ [s])
    (h1 : matchExpect line1 = some g1) (h2 : matchExpect line2 = some g2) :
    processLine (processLine st line1) line2 =
      { st with current := some { c with steps := pre ++ [{ s with expected := pyStrip g2 }] } } := by
  rw [processLine_expect_assigns hcur hsteps h1]
  exact @processLine_expect_assigns
    ⟨st.cases, some { c with steps := pre ++ [{ s with expected := pyStrip g1 }] }⟩
    line2 g2 { c with steps := pre ++ [{ s with expected := pyStrip g1 }] }
    pre { s with expected := pyStrip g1 } rfl rfl h2

/-- Witness for C1's amended theorem at a concrete state and two
concrete arrow lines. -/
theorem c1_second_expect_replaces_witness :
    processLine (processLine ⟨[], some ⟨"TC-1", "", "", "", [⟨"a", ""⟩]⟩⟩ "-> First") "-> Second" =
      ⟨[], some ⟨"TC-1", "", "", "", [⟨"a", "Second"⟩]⟩⟩ :=
  c1_second_expect_replaces ⟨[], some ⟨"TC-1", "", "", "", [⟨"a", ""⟩]⟩⟩ "-> First" "-> Second"
    "First" "Second" ⟨"TC-1", "", "", "", [⟨"a", ""⟩]⟩ [] ⟨"a", ""⟩ rfl rfl rfl rfl

/-- C2: the extraction is expected to recover a fenced or embedded JSON
object, but on `"```json\n\x7b\"a\": 1\x7d\n```"` (and on prose with one
embedded object) it returns the `\x7b"test_cases": []\x7d` fallback
instead of the object that direct parsing of the inner text yields: the
doubled backslashes in the raw-string patterns make both the fence sub
and the brace search demand literal backslash characters. -/
theorem c2_fence_bug :
    json_from_text "```json\n\x7b\"a\": 1\x7d\n```" = .ok emptyTestCases ∧
    json_loads "\x7b\"a\": 1\x7d" = some (Json.obj [("a", Json.num 1)]) ∧
    json_from_text "prose \x7b\"a\": 1\x7d more" = .ok emptyTestCases ∧
    emptyTestCases ≠ Json.obj [("a", Json.num 1)] := by
  refine ⟨rfl, rfl, rfl, fun h => ?_⟩
  exact absurd (congrArg Json.topKeys h) (by decide)

/-- C3, counterexample: `_json_from_text` is not total — on the input
`\x5c\x7bx\x5c\x7d` the brace pattern (which, as written, matches
backslash-brace) finds a group that is not valid JSON, and the second,
unguarded `json.loads` raises; and the no-brace input `"3"` parses
directly to the number 3, not to the empty test-case list. -/
theorem c3_counterexample :
    json_from_text "\\\x7bx\\\x7d" = .error "JSONDecodeError" ∧
    hasBraceChar "3" = false ∧
    json_from_text "3" = .ok (Json.num 3) ∧
    Json.num 3 ≠ emptyTestCases := by
  refine ⟨rfl, rfl, rfl, fun h => ?_⟩
  exact absurd (congrArg Json.isObj h) (by decide)

/-- C3 (amended): whenever the direct parse of the stripped,
fence-processed text fails AND the brace-pattern search finds no match,
`_json_from_text` returns `\x7b"test_cases": []\x7d`; it is not total,
since a matched brace group that is itself invalid JSON makes the
second, unguarded `json.loads` raise. -/
theorem c3_fallback_empty (s : String)
    (h1 : json_loads (fencePiped s) = none)
    (h2 : braceGroup (fencePiped s).data = none) :
    json_from_text s = .ok emptyTestCases := by
  simp [json_from_text, h1, h2]

/-- Witness for C3's amended theorem at a concrete input. -/
theorem c3_fallback_empty_witness : json_from_text "no json here" = .ok emptyTestCases :=
  c3_fallback_empty "no json here" rfl rfl

/-- C4: the legacy parser is a total function — for every string it
returns a list of cases; the empty string yields `[]`; out-of-order
markers and malformed headers are absorbed rather than rejected. -/
theorem c4_total :
    (∀ s : String, ∃ cs, parse_legacy_testcases_blob s = cs) ∧
    parse_legacy_testcases_blob "" = [] ∧
    parse_legacy_testcases_blob "-> orphan\nTC- 5 x\n7) weird" = [] ∧
    parse_legacy_testcases_blob "1000000000000000000000. big\nTC-9 —" =
      [⟨"TC-1", "", "", "", [⟨"big TC-9 —", ""⟩]⟩] :=
  ⟨fun s => ⟨_, rfl⟩, rfl, by decide, by decide⟩

/-- C5: the five-line example parses to exactly one case `TC-1`,
`Login succeeds`, with its two steps in order. -/
theorem c5_example :
    parse_legacy_testcases_blob
      "TC-1 — Login succeeds\n1. Enter valid credentials\n-> User is redirected to dashboard\n2. Check welcome banner\n-> Banner shows the user\x27s name" =
      [⟨"TC-1", "Login succeeds", "", "",
        [⟨"Enter valid credentials", "User is redirected to dashboard"⟩,
         ⟨"Check welcome banner", "Banner shows the user\x27s name"⟩]⟩] := by
  decide

/-- C6: a step line hitting a state with no open case synthesizes the
case `TC-1` with empty title, priority and type, and appends the step to
it. -/
theorem c6_step_synthesizes (st : ParseState) (line : String) (n a : String)
    (hcur : st.current = none) (hS : matchStep line = some (n, a)) :
    processLine st line =
      ⟨st.cases, some ⟨"TC-1", "", "", "", [⟨pyStrip a, ""⟩]⟩⟩ :=
  processLine_step_none hcur hS

/-- Witness for C6 at the concrete line `3. Do it`. -/
theorem c6_step_synthesizes_witness :
    processLine ⟨[], none⟩ "3. Do it" =
      ⟨[], some ⟨"TC-1", "", "", "", [⟨"Do it", ""⟩]⟩⟩ :=
  c6_step_synthesizes ⟨[], none⟩ "3. Do it" "3" "Do it" rfl rfl

/-- C7: at end of input an open case is pushed even with zero steps; a
single header line yields one finalized case with an empty step list and
a non-empty id (and, on the concrete instance, a non-empty title). -/
theorem c7_zero_step_case :
    (∀ (cs : List TestCase) (c : TestCase), finalize ⟨cs, some c⟩ = cs ++ [c]) ∧
    (∀ (line i t : String), matchHeader line = some (i, t) →
      ensureIds (finalize (processLine ⟨[], none⟩ line)) =
        [⟨removeSpaces i, pyStrip t, "", "", []⟩] ∧ removeSpaces i ≠ "") ∧
    parse_legacy_testcases_blob "TC-7 — Smoke test" = [⟨"TC-7", "Smoke test", "", "", []⟩] := by
  refine ⟨fun cs c => rfl, ?_, by decide⟩
  intro line i t hH
  obtain ⟨r, rfl⟩ := matchHeader_id_shape hH
  have hne : removeSpaces (String.mk ('T' :: 'C' :: r)) ≠ "" :=
    startsTC_ne_empty (startsTC_removeSpaces r)
  rw [processLine_header hH]
  refine ⟨?_, hne⟩
  show ensureIdsFrom 1 ([] ++ [_]) = _
  rw [List.nil_append, ensureIdsFrom_eq_self (by simpa using hne) 1]

/-- Witness for C7 at the concrete header `TC-9 — T`. -/
theorem c7_zero_step_case_witness :
    ensureIds (finalize (processLine ⟨[], none⟩ "TC-9 — T")) =
      [⟨"TC-9", "T", "", "", []⟩] ∧ ("TC-9" : String) ≠ "" :=
  c7_zero_step_case.2.1 "TC-9 — T" "TC-9" "T" rfl

/-- C8: across every loop iteration the result list only ever grows by
appending the closed case unchanged, and the open case's step list
either stays, gains one step at the end, or has only its last step
edited in place; finalization appends the open case unchanged, and the
id post-pass leaves every step list untouched.  Hence steps keep their
declaration order, are never deduplicated, and never move across
cases. -/
theorem c8_step_order :
    (∀ (st : ParseState) (line : String),
      ((processLine st line).cases = st.cases ∧
        stepsEvolve (currentSteps st) (currentSteps (processLine st line))) ∨
      ((processLine st line).cases = st.cases ++ optCase st.current ∧
        currentSteps (processLine st line) = [])) ∧
    (∀ st : ParseState, finalize st = st.cases ++ optCase st.current) ∧
    (∀ (i : Nat) (cs : List TestCase),
      (ensureIdsFrom i cs).map TestCase.steps = cs.map TestCase.steps) :=
  ⟨processLine_evolution, finalize_eq, ensureIdsFrom_steps⟩

/-- C9, counterexample: the validation uses Python's `in`, which on a
string reply is a substring test, so `call_model` accepts the JSON
string `"metadata design traceability test_cases"` — a parsed value with
no top-level keys at all. -/
theorem c9_counterexample :
    call_model (fun _ => "\"metadata design traceability test_cases\"") 2 =
      .ok (Json.str "metadata design traceability test_cases") ∧
    Json.isObj (Json.str "metadata design traceability test_cases") = false :=
  ⟨rfl, rfl⟩

/-- C9 (amended): a reply is accepted only if every one of the four
required names is `in` the parsed JSON under Python semantics (dict key,
list element, or substring of a string — so a non-object can be
accepted); an accepted reply is found within `max_retries + 1` attempts;
and if every attempt within that bound fails, `RuntimeError` is raised
to the caller. -/
theorem c9_retry_contract :
    (∀ (r : Nat → String) (mr : Nat) (d : Json),
      call_model r mr = .ok d → keysOk d = true) ∧
    (∀ (r : Nat → String) (mr : Nat) (d : Json),
      call_model r mr = .ok d → ∃ j, j < mr + 1 ∧ attemptParse (r j) = some d) ∧
    (∀ (r : Nat → String) (mr : Nat),
      (∀ j, j < mr + 1 → attemptParse (r j) = none) →
      call_model r mr = .error "RuntimeError: Failed to parse model JSON.") := by
  refine ⟨?_, ?_, ?_⟩
  · intro r mr d h
    exact callModelAux_ok_keysOk h
  · intro r mr d h
    simpa using callModelAux_ok_bound (i := 0) h
  · intro r mr h
    exact callModelAux_error (i := 0) (by simpa using h)

/-- Witness for C9's amended theorem: a reply carrying all four keys is
accepted on the first attempt, and with every reply unparsable the call
ends in the `RuntimeError`. -/
theorem c9_retry_contract_witness :
    keysOk (Json.obj [("metadata", Json.null), ("design", Json.null),
      ("traceability", Json.null), ("test_cases", Json.null)]) = true ∧
    (∃ j, j < 1 ∧
      attemptParse ((fun _ => "\x7b\"metadata\": null, \"design\": null, \"traceability\": null, \"test_cases\": null\x7d") j) =
        some (Json.obj [("metadata", Json.null), ("design", Json.null),
          ("traceability", Json.null), ("test_cases", Json.null)])) ∧
    call_model (fun _ => "x") 1 = .error "RuntimeError: Failed to parse model JSON." :=
  ⟨c9_retry_contract.1
      (fun _ => "\x7b\"metadata\": null, \"design\": null, \"traceability\": null, \"test_cases\": null\x7d") 0 _ rfl,
   c9_retry_contract.2.1
      (fun _ => "\x7b\"metadata\": null, \"design\": null, \"traceability\": null, \"test_cases\": null\x7d") 0 _ rfl,
   c9_retry_contract.2.2 (fun _ => "x") 1 (fun _ _ => rfl)⟩

/-- C10: every case the parser produces has an id beginning with `TC`
(captured from a header, or the synthesized `TC-1`), hence non-empty, so
the `TC-<position>` post-pass is the identity on the parser's own
output. -/
theorem c10_parser_ids (blob : String) :
    (∀ c ∈ parse_legacy_testcases_blob blob, startsTC c.id = true ∧ c.id ≠ "") ∧
    ensureIds (coreCases blob) = coreCases blob ∧
    parse_legacy_testcases_blob blob = coreCases blob := by
  have hids := coreCases_idsOk blob
  have hne : ∀ c ∈ coreCases blob, c.id ≠ "" := fun c hc => startsTC_ne_empty (hids c hc)
  have hid : ensureIds (coreCases blob) = coreCases blob := ensureIdsFrom_eq_self hne 1
  have hp : parse_legacy_testcases_blob blob = coreCases blob := by
    unfold parse_legacy_testcases_blob
    by_cases hb : pyStrip (pyDedent blob) = ""
    · rw [if_pos hb]
      unfold coreCases legacyLines
      rw [hb]
      rfl
    · rw [if_neg hb]; exact hid
  exact ⟨fun c hc => ⟨hids c (hp ▸ hc), hne c (hp ▸ hc)⟩, hid, hp⟩

/-- Witness for C10 at the concrete blob `1. x` and its single produced
case. -/
theorem c10_parser_ids_witness :
    startsTC (⟨"TC-1", "", "", "", [⟨"x", ""⟩]⟩ : TestCase).id = true ∧
    (⟨"TC-1", "", "", "", [⟨"x", ""⟩]⟩ : TestCase).id ≠ "" :=
  (c10_parser_ids "1. x").1 ⟨"TC-1", "", "", "", [⟨"x", ""⟩]⟩ (by decide)

end Gen
